import Mathlib

/-!
# Verification of the Numerov bound-state solver

Shallow embedding of the numerical core of the repository
(`numerov.py`: `numerov_wf`, `find_bound_state`, `numerov_kgwf`, and the
bracket validation performed in `tasks.py` by
`PointNucleusFindBoundState.__init__`), over the real numbers.

The helper module `solution.py` (the `Solution` entity, `normalize`,
`get_norm`, `add_spherical_harmonic`, the asymptotic amplitude
`abs_at_infinity`) is not among the provided sources; those definitions are
modelled from the specification (sections 3 and 4.3) and are marked
`Modelled from the spec:` in their doc comments.

Machine floating-point arithmetic is embedded as exact real arithmetic;
numpy arrays are embedded as `List ℝ` with numpy's out-of-range reads never
exercised (accessors use `List.getD` with default `0`).
-/

namespace Numerov

noncomputable section

/-- Modelled from the spec: coefficients of the composite quadrature of
section 4.3 (`solution.py` is not among the provided sources).  For an odd
number `N` of samples this is composite Simpson (end weights `1/3`, interior
weights alternating `4/3` and `2/3`); for an even `N` the spec prescribes
Simpson over the first `N-1` samples with a trapezoidal fallback on the last
interval, which adds `1/2` to each of the last two weights. -/
def simpsonCoeff (N i : ℕ) : ℝ :=
  if N % 2 = 1 then
    if i = 0 ∨ i = N - 1 then 1 / 3 else if i % 2 = 1 then 4 / 3 else 2 / 3
  else
    if i = N - 1 then 1 / 2
    else if i = N - 2 then 1 / 3 + 1 / 2
    else if i = 0 then 1 / 3
    else if i % 2 = 1 then 4 / 3 else 2 / 3

/-- Modelled from the spec: the quadrature `∫ v dr` over the uniform grid
`r` (spacing `r[1] - r[0]`), used by `normalize` and the derived metrics. -/
def quadrature (v r : List ℝ) : ℝ :=
  (r.getD 1 0 - r.getD 0 0) *
    ∑ i in Finset.range r.length, simpsonCoeff r.length i * v.getD i 0

/-- Modelled from the spec: `get_norm(values, r_grid)` is the square root of
the quadrature integral `∫ values² dr` (so that dividing by it makes the
integral of the square equal to one). -/
def get_norm (v r : List ℝ) : ℝ :=
  Real.sqrt (quadrature (v.map (fun x => x ^ 2)) r)

/-- The non-degenerate core of `normalize`: rescale every sample by the
norm.  Used by `numerov_wf`, whose inputs are shown below to make the
normalization integral strictly positive (`normalize_eq_core`). -/
def normalizeCore (v r : List ℝ) : List ℝ :=
  v.map (fun x => x / get_norm v r)

open Classical in
/-- Modelled from the spec: `normalize(values, r_grid)` rescales `values`
so that `∫ values² dr = 1`, and signals the degenerate case (grid shorter
than 3 points, or zero normalization integral) instead of silently dividing
by zero (spec sections 4.3 and 7, `QuadratureDegenerate`). -/
def normalize (v r : List ℝ) : Option (List ℝ) :=
  if r.length < 3 ∨ quadrature (v.map (fun x => x ^ 2)) r = 0 then none
  else some (normalizeCore v r)

/-- Modelled from the spec: the angular factor for `(l, m = 0)` is a fixed
constant multiplier per `l`, the real spherical harmonic evaluated at polar
angle 0, `sqrt ((2l+1)/(4π))`. -/
def sphFactor (l m : ℕ) : ℝ :=
  Real.sqrt ((2 * (l : ℝ) + 1) / (4 * Real.pi))

/-- Modelled from the spec and the call site in `numerov_wf`: multiply every
sample by the constant angular factor for `(l, m)`. -/
def add_spherical_harmonic (v : List ℝ) (l m : ℕ) : List ℝ :=
  v.map (fun x => sphFactor l m * x)

/-- Modelled from the spec (section 3) and the constructor call in
`numerov_wf`: the output entity bundling the grid, the normalized reduced
wavefunction `u`, the normalized full wavefunction `ψ`, quantum numbers,
the trial energy and the step count. -/
structure Solution where
  uwave_function : List ℝ
  wave_function : List ℝ
  l_level : ℕ
  m_level : ℕ
  energy : ℝ
  r_grid : List ℝ
  steps : ℕ
  level : ℕ

/-- Modelled from the spec: the asymptotic amplitude is `|u|` at the last
grid point of the stored (normalized) reduced wavefunction. -/
def Solution.abs_at_infinity (s : Solution) : ℝ :=
  |(s.uwave_function.getLast?).getD 0|

/-- The inputs of `numerov_wf` other than the trial energy.  `hbarc` stands
for the external configuration constant `constants.HBARC` (the spec treats
physical constants as external configuration values). -/
structure PhysParams where
  hbarc : ℝ
  l_level : ℕ
  potential : ℝ → ℝ
  r_grid : List ℝ
  mass_a : ℝ
  mass_b : ℝ

/-- `reduced_mass = mass_a * mass_b / (mass_a + mass_b)` from `numerov_wf`. -/
def reduced_mass (p : PhysParams) : ℝ := p.mass_a * p.mass_b / (p.mass_a + p.mass_b)

/-- Grid point `r_grid[i]` (numpy read, never out of range in the code). -/
def rItem (p : PhysParams) (i : ℕ) : ℝ := p.r_grid.getD i 0

/-- `r_diff = r_grid[1] - r_grid[0]` from `numerov_wf`. -/
def r_diff (p : PhysParams) : ℝ := rItem p 1 - rItem p 0

/-- The local driving function `inhomogeneous` of `numerov_wf`:
`g(r) = (2·μ/ħc²)·(E − V(r)) − l(l+1)/r²`. -/
def inhomogeneous (p : PhysParams) (energy x : ℝ) : ℝ :=
  2 * reduced_mass p / p.hbarc ^ 2 * (energy - p.potential x)
    - (p.l_level : ℝ) * ((p.l_level : ℝ) + 1) / x ^ 2

/-- The raw reduced wavefunction filled in by the loop of `numerov_wf`,
written as a recurrence on the sample index: `u[0] = 0`,
`u[1] = r_diff^(l+1)`, and for `i = 1 … N-2` the loop body sets
`u[i+1] = (u[i]·(2 − (5/6)h²g(r_i)) − u[i-1]·(1 + (1/12)h²g(r_{i-1})))
/ (1 + (1/12)h²g(r_{i+1}))`.  The code fills indices `0 … N-1`; this
recurrence is total on `ℕ` and agrees with the filled array on those
indices. -/
def rawU (p : PhysParams) (energy : ℝ) : ℕ → ℝ
  | 0 => 0
  | 1 => r_diff p ^ (p.l_level + 1)
  | i + 2 =>
      (rawU p energy (i + 1)
            * (2 - 5 / 6 * r_diff p ^ 2 * inhomogeneous p energy (rItem p (i + 1)))
          - rawU p energy i
            * (1 + 1 / 12 * r_diff p ^ 2 * inhomogeneous p energy (rItem p i)))
        / (1 + 1 / 12 * r_diff p ^ 2 * inhomogeneous p energy (rItem p (i + 2)))

/-- The array `u_wave_function` of `numerov_wf` (length of the grid). -/
def numerovUList (p : PhysParams) (energy : ℝ) : List ℝ :=
  (List.range p.r_grid.length).map (rawU p energy)

/-- The array `wave_function_no_sph` of `numerov_wf`: `u[i] / r_grid[i]`. -/
def waveNoSph (p : PhysParams) (energy : ℝ) : List ℝ :=
  (List.range p.r_grid.length).map (fun i => rawU p energy i / rItem p i)

/-- `numerov_wf(energy, l_level, potential, r_grid, mass_a, mass_b)` from
`numerov.py`: propagate the Numerov recurrence, divide by `r`, apply the
angular factor, normalize both arrays and package them into a `Solution`.
The normalization uses `normalizeCore`; `normalize_eq_core` below shows this
is the value `normalize` yields whenever its degeneracy guard does not fire
(which is the case for every valid grid, `numerov_quadrature_pos`). -/
def numerov_wf (p : PhysParams) (energy : ℝ) : Solution where
  uwave_function := normalizeCore (numerovUList p energy) p.r_grid
  wave_function :=
    normalizeCore (add_spherical_harmonic (waveNoSph p energy) p.l_level 0) p.r_grid
  l_level := p.l_level
  m_level := 0
  energy := energy
  r_grid := p.r_grid
  steps := p.r_grid.length
  level := 1

/-- `numerov_kgwf(E, l, potential, r_grid)` from `numerov.py`: the stubbed
Klein-Gordon path.  It allocates two all-zero arrays and returns the
normalization of the (still all-zero) wavefunction, performing no Numerov
propagation. -/
def numerov_kgwf (E : ℝ) (l : ℕ) (potential : ℝ → ℝ) (r_grid : List ℝ) :
    Option (List ℝ) :=
  let work := List.replicate r_grid.length (0 : ℝ)
  let wave_function := List.replicate r_grid.length (0 : ℝ)
  normalize wave_function r_grid

/-- The mutable state of the loop of `find_bound_state`: the energy bracket,
the cached boundary Solutions, the current Solution, and `previous_energy`
(`none` stands for the initial `np.inf`).  `count` is instrumentation: the
number of `numerov_wf` integrations performed inside the loop. -/
structure SearchState where
  min_energy : ℝ
  max_energy : ℝ
  min_energy_solution : Solution
  max_energy_solution : Solution
  solution : Solution
  previous_energy : Option ℝ
  count : ℕ

/-- The guard of the while loop of `find_bound_state`:
`abs(previous_energy - solution.energy) > exit_param`, with
`previous_energy = np.inf` (here `none`) making the guard true. -/
def searchCond (exit_param : ℝ) (st : SearchState) : Prop :=
  match st.previous_energy with
  | none => True
  | some pe => exit_param < |pe - st.solution.energy|

open Classical in
/-- One full body execution of the loop of `find_bound_state`: compute the
midpoint energy and its Solution, remember the previous current energy, make
the midpoint Solution current, and move whichever boundary has the larger
cached asymptotic amplitude to the average of itself and the midpoint,
recomputing that boundary's Solution.  Two `numerov_wf` integrations are
performed, recorded in `count`. -/
def searchStep (p : PhysParams) (st : SearchState) : SearchState :=
  let average_energy := (st.max_energy + st.min_energy) / 2
  let average_energy_solution := numerov_wf p average_energy
  if st.max_energy_solution.abs_at_infinity < st.min_energy_solution.abs_at_infinity then
    { st with
      previous_energy := some st.solution.energy
      solution := average_energy_solution
      min_energy := (st.min_energy + average_energy) / 2
      min_energy_solution := numerov_wf p ((st.min_energy + average_energy) / 2)
      count := st.count + 2 }
  else
    { st with
      previous_energy := some st.solution.energy
      solution := average_energy_solution
      max_energy := (st.max_energy + average_energy) / 2
      max_energy_solution := numerov_wf p ((st.max_energy + average_energy) / 2)
      count := st.count + 2 }

open Classical in
/-- The while loop of `find_bound_state`.  On each pass the loop guard is
checked first; the body then runs unless the iteration counter has exceeded
`max_iterations`, in which case the code logs "Max iterations reached" and
breaks.  `fuel` is the number of body executions still allowed
(`max_iterations` at entry), and the returned Boolean mirrors the warning:
it is `true` exactly when the loop ended by exceeding `max_iterations` with
the guard still true. -/
def searchLoop (p : PhysParams) (exit_param : ℝ) : ℕ → SearchState → SearchState × Bool
  | 0, st => (st, if searchCond exit_param st then true else false)
  | fuel + 1, st =>
      if searchCond exit_param st then searchLoop p exit_param fuel (searchStep p st)
      else (st, false)

/-- The state of `find_bound_state` just before its loop: both boundary
Solutions are integrated, and the current Solution is
`min(min_energy_solution, max_energy_solution, key=abs_at_infinity)`
(Python's `min` keeps the first argument on ties). -/
def initialState (p : PhysParams) (min_energy max_energy : ℝ) : SearchState :=
  let max_energy_solution := numerov_wf p max_energy
  let min_energy_solution := numerov_wf p min_energy
  { min_energy := min_energy
    max_energy := max_energy
    min_energy_solution := min_energy_solution
    max_energy_solution := max_energy_solution
    solution :=
      if max_energy_solution.abs_at_infinity < min_energy_solution.abs_at_infinity then
        max_energy_solution
      else min_energy_solution
    previous_energy := none
    count := 0 }

/-- `find_bound_state`, instrumented: the final loop state together with the
max-iterations warning flag. -/
def find_bound_state_state (p : PhysParams)
    (min_energy max_energy exit_param : ℝ) (max_iterations : ℕ) :
    SearchState × Bool :=
  searchLoop p exit_param max_iterations (initialState p min_energy max_energy)

/-- `find_bound_state(potential, r_grid, mass_a, mass_b, l_level,
min_energy, max_energy, exit_param, max_iterations)` from `numerov.py`:
the returned Solution, paired with the Boolean mirroring the
"Max iterations reached" warning (a log in the source). -/
def find_bound_state (p : PhysParams)
    (min_energy max_energy exit_param : ℝ) (max_iterations : ℕ) :
    Solution × Bool :=
  ((find_bound_state_state p min_energy max_energy exit_param max_iterations).1.solution,
    (find_bound_state_state p min_energy max_energy exit_param max_iterations).2)

open Classical in
/-- The construction-time bracket validation of
`PointNucleusFindBoundState.__init__` in `tasks.py`: raise `ValueError`
when `energy_min >= energy_max`, otherwise keep the bracket. -/
def PointNucleusFindBoundState_init (energy_min energy_max : ℝ) :
    Except String (ℝ × ℝ) :=
  if energy_min ≥ energy_max then
    Except.error "energy_min must be less than energy_max"
  else Except.ok (energy_min, energy_max)

/-- Concrete parameters used by witnesses and counterexamples: unit
constants and masses (so the reduced-mass prefactor is `1`), angular
momentum `0`, the zero potential, and the three-point grid `[1, 2, 3]`
(spacing `1`).  With these, `inhomogeneous pZero E x = E`. -/
def pZero : PhysParams where
  hbarc := 1
  l_level := 0
  potential := fun _ => 0
  r_grid := [1, 2, 3]
  mass_a := 1
  mass_b := 1

/-- A concrete Solution record with asymptotic amplitude `1`. -/
def solUnit : Solution where
  uwave_function := [0, 1]
  wave_function := [0, 1]
  l_level := 0
  m_level := 0
  energy := 0
  r_grid := [0, 1]
  steps := 2
  level := 1

/-- A concrete Solution record with asymptotic amplitude `0`. -/
def solFlat : Solution where
  uwave_function := [0, 0]
  wave_function := [0, 0]
  l_level := 0
  m_level := 0
  energy := 0
  r_grid := [0, 1]
  steps := 2
  level := 1

/-- A concrete loop state whose tolerance test already holds
(`previous_energy = some 0` and current energy `0`). -/
def stConverged : SearchState where
  min_energy := 0
  max_energy := 1
  min_energy_solution := solFlat
  max_energy_solution := solFlat
  solution := solFlat
  previous_energy := some 0
  count := 0

/-- A concrete loop state whose max boundary has the larger cached
amplitude (`1` against `0`). -/
def stLargerMax : SearchState where
  min_energy := 0
  max_energy := 1
  min_energy_solution := solFlat
  max_energy_solution := solUnit
  solution := solFlat
  previous_energy := none
  count := 0

/-- A concrete loop state whose min boundary has the larger cached
amplitude (`1` against `0`). -/
def stLargerMin : SearchState where
  min_energy := 0
  max_energy := 1
  min_energy_solution := solUnit
  max_energy_solution := solFlat
  solution := solFlat
  previous_energy := none
  count := 0

/-! ## Helper lemmas -/

/-- Reading a mapped list with default `0` commutes with the function when
the function fixes `0`. -/
theorem getD_map_of_zero (v : List ℝ) (g : ℝ → ℝ) (hg : g 0 = 0) (i : ℕ) :
    (v.map g).getD i 0 = g (v.getD i 0) := by
  rw [List.getD_eq_getElem?_getD, List.getD_eq_getElem?_getD, List.getElem?_map]
  cases v[i]? <;> simp [hg]

/-- Reading `(List.range N).map f` at an in-range index yields `f i`. -/
theorem getD_map_range (f : ℕ → ℝ) (N i : ℕ) (h : i < N) :
    ((List.range N).map f).getD i 0 = f i := by
  rw [List.getD_eq_getElem?_getD, List.getElem?_map]
  simp [List.getElem?_range, h]

/-- All quadrature coefficients are nonnegative. -/
theorem simpsonCoeff_nonneg (N i : ℕ) : 0 ≤ simpsonCoeff N i := by
  unfold simpsonCoeff
  split_ifs <;> norm_num

/-- For any grid of at least three points the second coefficient is `4/3`. -/
theorem simpsonCoeff_one (N : ℕ) (hN : 3 ≤ N) : simpsonCoeff N 1 = 4 / 3 := by
  unfold simpsonCoeff
  rcases Nat.even_or_odd N with he | ho
  · have h0 : N % 2 = 0 := Nat.even_iff.mp he
    rw [if_neg (by omega : ¬N % 2 = 1), if_neg (by omega : ¬(1 : ℕ) = N - 1),
      if_neg (by omega : ¬(1 : ℕ) = N - 2), if_neg (by omega : ¬(1 : ℕ) = 0),
      if_pos (by norm_num : 1 % 2 = 1)]
  · have h0 : N % 2 = 1 := Nat.odd_iff.mp ho
    rw [if_pos h0, if_neg (by omega : ¬((1 : ℕ) = 0 ∨ (1 : ℕ) = N - 1)),
      if_pos (by norm_num : 1 % 2 = 1)]

/-- The quadrature of a list of squares is nonnegative on a grid with
nonnegative spacing. -/
theorem quadrature_sq_nonneg (v r : List ℝ) (hh : 0 ≤ r.getD 1 0 - r.getD 0 0) :
    0 ≤ quadrature (v.map (fun x => x ^ 2)) r := by
  apply mul_nonneg hh
  apply Finset.sum_nonneg
  intro i _
  apply mul_nonneg (simpsonCoeff_nonneg _ _)
  rw [getD_map_of_zero _ _ (by norm_num)]
  positivity

/-- Rescaling every sample by `1 / c` divides the quadrature of the squares
by `c ^ 2`. -/
theorem quadrature_sq_div (v r : List ℝ) (c : ℝ) :
    quadrature ((v.map (fun x => x / c)).map (fun x => x ^ 2)) r
      = quadrature (v.map (fun x => x ^ 2)) r / c ^ 2 := by
  unfold quadrature
  rw [mul_div_assoc]
  congr 1
  rw [Finset.sum_div]
  refine Finset.sum_congr rfl fun i _ => ?_
  rw [List.map_map, getD_map_of_zero _ _ (by simp), getD_map_of_zero _ _ (by norm_num)]
  show simpsonCoeff r.length i * (v.getD i 0 / c) ^ 2
      = simpsonCoeff r.length i * (v.getD i 0) ^ 2 / c ^ 2
  rw [div_pow, mul_div_assoc]

/-- When the normalization integral is strictly positive, the rescaled
samples have quadrature integral of their squares exactly one. -/
theorem quadrature_sq_normalizeCore (v r : List ℝ)
    (hpos : 0 < quadrature (v.map (fun x => x ^ 2)) r) :
    quadrature ((normalizeCore v r).map (fun x => x ^ 2)) r = 1 := by
  unfold normalizeCore
  rw [quadrature_sq_div, get_norm, Real.sq_sqrt hpos.le]
  exact div_self hpos.ne'

/-- On a non-degenerate input, `normalize` succeeds with the rescaled
samples. -/
theorem normalize_eq_core (v r : List ℝ) (hN : 3 ≤ r.length)
    (hq : quadrature (v.map (fun x => x ^ 2)) r ≠ 0) :
    normalize v r = some (normalizeCore v r) := by
  unfold normalize
  rw [if_neg]
  push_neg
  exact ⟨by omega, hq⟩

/-- The normalization integral of the raw Numerov wavefunction is strictly
positive on every valid grid (at least three points, positive spacing):
the seed `u[1] = h^(l+1)` contributes a strictly positive term. -/
theorem numerov_quadrature_pos (p : PhysParams) (energy : ℝ)
    (hN : 3 ≤ p.r_grid.length) (hh : 0 < r_diff p) :
    0 < quadrature ((numerovUList p energy).map (fun x => x ^ 2)) p.r_grid := by
  have hterm : ∀ i ∈ Finset.range p.r_grid.length,
      0 ≤ simpsonCoeff p.r_grid.length i
        * ((numerovUList p energy).map (fun x => x ^ 2)).getD i 0 := by
    intro i _
    apply mul_nonneg (simpsonCoeff_nonneg _ _)
    rw [getD_map_of_zero _ _ (by norm_num)]
    positivity
  have h1mem : 1 ∈ Finset.range p.r_grid.length := by
    simp only [Finset.mem_range]
    omega
  have hle := Finset.single_le_sum hterm h1mem
  have h1 : ((numerovUList p energy).map (fun x => x ^ 2)).getD 1 0
      = (r_diff p ^ (p.l_level + 1)) ^ 2 := by
    rw [getD_map_of_zero _ _ (by norm_num), numerovUList,
      getD_map_range _ _ _ (by omega), rawU]
  have hpos1 : 0 < simpsonCoeff p.r_grid.length 1
      * ((numerovUList p energy).map (fun x => x ^ 2)).getD 1 0 := by
    rw [h1, simpsonCoeff_one _ hN]
    positivity
  have hsp : r_diff p = p.r_grid.getD 1 0 - p.r_grid.getD 0 0 := rfl
  exact mul_pos (hsp ▸ hh) (lt_of_lt_of_le hpos1 hle)

/-- The asymptotic amplitude of any Solution is nonnegative. -/
theorem abs_at_infinity_nonneg (s : Solution) : 0 ≤ s.abs_at_infinity :=
  abs_nonneg _

/-- `numerov_wf` stores the supplied trial energy. -/
theorem numerov_wf_energy (p : PhysParams) (E : ℝ) :
    (numerov_wf p E).energy = E := rfl

/-! ## Evaluation of the Numerov integrator on the concrete parameters -/

theorem pZero_r_diff : r_diff pZero = 1 := by
  norm_num [r_diff, rItem, pZero, List.getD]

theorem pZero_inhomogeneous (E x : ℝ) : inhomogeneous pZero E x = E := by
  simp [inhomogeneous, reduced_mass, pZero]
  norm_num

theorem pZero_rawU_zero (E : ℝ) : rawU pZero E 0 = 0 := rfl

theorem pZero_rawU_one (E : ℝ) : rawU pZero E 1 = 1 := by
  rw [rawU, pZero_r_diff]
  norm_num

theorem pZero_rawU_two (E : ℝ) :
    rawU pZero E 2 = (2 - 5 / 6 * E) / (1 + 1 / 12 * E) := by
  show rawU pZero E (0 + 2) = _
  rw [rawU]
  norm_num [pZero_rawU_one, pZero_rawU_zero, pZero_r_diff, pZero_inhomogeneous]

theorem pZero_numerovUList (E : ℝ) :
    numerovUList pZero E = [0, 1, rawU pZero E 2] := by
  show [rawU pZero E 0, rawU pZero E 1, rawU pZero E 2] = _
  rw [pZero_rawU_zero, pZero_rawU_one]

/-- The quadrature over the grid `[1, 2, 3]` of a three-sample list. -/
theorem quadrature_three (a b c : ℝ) :
    quadrature [a, b, c] pZero.r_grid = a / 3 + 4 / 3 * b + c / 3 := by
  unfold quadrature
  norm_num [pZero, List.getD, simpsonCoeff, Finset.sum_range_succ]
  ring

theorem pZero_get_norm (E : ℝ) :
    get_norm [0, 1, rawU pZero E 2] pZero.r_grid
      = Real.sqrt ((4 + rawU pZero E 2 ^ 2) / 3) := by
  rw [get_norm]
  congr 1
  show quadrature [(0 : ℝ) ^ 2, 1 ^ 2, rawU pZero E 2 ^ 2] pZero.r_grid = _
  rw [quadrature_three]
  ring

theorem pZero_abs_at_infinity (E : ℝ) :
    (numerov_wf pZero E).abs_at_infinity
      = |rawU pZero E 2| / Real.sqrt ((4 + rawU pZero E 2 ^ 2) / 3) := by
  show |((normalizeCore (numerovUList pZero E) pZero.r_grid).getLast?).getD 0| = _
  rw [normalizeCore, pZero_numerovUList, pZero_get_norm]
  show |rawU pZero E 2 / Real.sqrt ((4 + rawU pZero E 2 ^ 2) / 3)| = _
  rw [abs_div, abs_of_nonneg (Real.sqrt_nonneg _)]

theorem pZero_amp_pos (E : ℝ) (hv : rawU pZero E 2 ≠ 0) :
    0 < (numerov_wf pZero E).abs_at_infinity := by
  rw [pZero_abs_at_infinity]
  exact div_pos (abs_pos.mpr hv) (Real.sqrt_pos.mpr (by positivity))

theorem pZero_amp_eq_zero (E : ℝ) (hv : rawU pZero E 2 = 0) :
    (numerov_wf pZero E).abs_at_infinity = 0 := by
  rw [pZero_abs_at_infinity, hv]
  simp

theorem solUnit_amp : solUnit.abs_at_infinity = 1 := by
  simp [Solution.abs_at_infinity, solUnit]

theorem solFlat_amp : solFlat.abs_at_infinity = 0 := by
  simp [Solution.abs_at_infinity, solFlat]

/-- Reading a replicated zero list always yields zero. -/
theorem getD_replicate_zero (n i : ℕ) :
    ((List.replicate n (0 : ℝ)).getD i 0) = 0 := by
  rw [List.getD_eq_getElem?_getD]
  rcases lt_or_le i n with h | h
  · simp [List.getElem?_replicate, h]
  · rw [List.getElem?_eq_none (by simpa using h)]
    rfl

/-- Each loop body performs exactly two Numerov integrations. -/
theorem searchStep_count (p : PhysParams) (st : SearchState) :
    (searchStep p st).count = st.count + 2 := by
  simp only [searchStep]
  by_cases h : st.max_energy_solution.abs_at_infinity
      < st.min_energy_solution.abs_at_infinity
  · rw [if_pos h]
  · rw [if_neg h]

/-- Each loop body makes the freshly integrated midpoint Solution the
current Solution, whichever boundary it moves. -/
theorem searchStep_solution (p : PhysParams) (st : SearchState) :
    (searchStep p st).solution
      = numerov_wf p ((st.max_energy + st.min_energy) / 2) := by
  simp only [searchStep]
  by_cases h : st.max_energy_solution.abs_at_infinity
      < st.min_energy_solution.abs_at_infinity
  · rw [if_pos h]
  · rw [if_neg h]

/-- The Klein-Gordon stub normalizes an all-zero array, whose normalization
integral is zero, so the (spec-modelled) guarded `normalize` always signals
the degenerate case. -/
theorem numerov_kgwf_eq_none (E : ℝ) (l : ℕ) (potential : ℝ → ℝ)
    (r_grid : List ℝ) :
    numerov_kgwf E l potential r_grid = none := by
  show normalize (List.replicate r_grid.length 0) r_grid = none
  unfold normalize
  rw [if_pos]
  right
  unfold quadrature
  rw [Finset.sum_eq_zero, mul_zero]
  intro i _
  rw [getD_map_of_zero _ _ (by norm_num), getD_replicate_zero]
  norm_num

/-! ## Claim theorems -/

/-- C1: for every grid of at least 3 points with uniform spacing `h`, every
energy, non-negative angular momentum, positive masses and potential, the
raw wavefunction of `numerov_wf` satisfies, for each `i` from `1` to `N-2`,
the recursion `u[i+1] = (u[i]·(2 − (5/6)h²g(r_i)) − u[i-1]·(1 +
(1/12)h²g(r_{i-1}))) / (1 + (1/12)h²g(r_{i+1}))` with
`g(r) = (2μ/(ħc)²)·(E − V(r)) − l(l+1)/r²` and
`μ = mass_a·mass_b/(mass_a+mass_b)`. -/
theorem numerov_recursion_holds (p : PhysParams) (energy : ℝ)
    (hN : 3 ≤ p.r_grid.length)
    (huni : ∀ i, i + 1 < p.r_grid.length →
      rItem p (i + 1) - rItem p i = r_diff p)
    (hma : 0 < p.mass_a) (hmb : 0 < p.mass_b)
    (i : ℕ) (h1 : 1 ≤ i) (h2 : i ≤ p.r_grid.length - 2) :
    rawU p energy (i + 1) =
      (rawU p energy i
            * (2 - 5 / 6 * r_diff p ^ 2
                * (2 * (p.mass_a * p.mass_b / (p.mass_a + p.mass_b)) / p.hbarc ^ 2
                    * (energy - p.potential (rItem p i))
                  - (p.l_level : ℝ) * ((p.l_level : ℝ) + 1) / rItem p i ^ 2))
          - rawU p energy (i - 1)
            * (1 + 1 / 12 * r_diff p ^ 2
                * (2 * (p.mass_a * p.mass_b / (p.mass_a + p.mass_b)) / p.hbarc ^ 2
                    * (energy - p.potential (rItem p (i - 1)))
                  - (p.l_level : ℝ) * ((p.l_level : ℝ) + 1) / rItem p (i - 1) ^ 2)))
        / (1 + 1 / 12 * r_diff p ^ 2
            * (2 * (p.mass_a * p.mass_b / (p.mass_a + p.mass_b)) / p.hbarc ^ 2
                * (energy - p.potential (rItem p (i + 1)))
              - (p.l_level : ℝ) * ((p.l_level : ℝ) + 1) / rItem p (i + 1) ^ 2)) := by
  obtain ⟨k, rfl⟩ : ∃ k, i = k + 1 := ⟨i - 1, by omega⟩
  show rawU p energy (k + 2) = _
  rw [rawU]
  simp only [inhomogeneous, reduced_mass, Nat.add_sub_cancel]

/-- Witness for C1: on the concrete parameters (`E = 0`, zero potential,
grid `[1, 2, 3]`, unit masses) the recursion gives `u[2] = 2`. -/
theorem numerov_recursion_holds_witness : rawU pZero 0 2 = 2 := by
  have h := numerov_recursion_holds pZero 0 (by norm_num [pZero])
    (by
      intro i hi
      have hi3 : i + 1 < 3 := hi
      have : i = 0 ∨ i = 1 := by omega
      rcases this with rfl | rfl <;> norm_num [rItem, r_diff, pZero, List.getD])
    (by norm_num [pZero]) (by norm_num [pZero]) 1 le_rfl (by norm_num [pZero])
  rw [show (2 : ℕ) = 1 + 1 from rfl, h, show (1 : ℕ) - 1 = 0 from rfl,
    pZero_rawU_one, pZero_rawU_zero]
  norm_num [pZero, rItem, r_diff, List.getD]

/-- C5: for every grid of at least 2 points, the raw wavefunction computed
by `numerov_wf` is seeded with `u[0] = 0` and `u[1] = h^(l+1)`, where
`h = r_grid[1] - r_grid[0]`. -/
theorem numerov_seed (p : PhysParams) (energy : ℝ)
    (hN : 2 ≤ p.r_grid.length) :
    (numerovUList p energy).getD 0 0 = 0
      ∧ (numerovUList p energy).getD 1 0 = r_diff p ^ (p.l_level + 1) := by
  constructor
  · rw [numerovUList, getD_map_range _ _ _ (by omega)]
    rfl
  · rw [numerovUList, getD_map_range _ _ _ (by omega), rawU]

/-- Witness for C5: the concrete parameters seed `u[0] = 0`, `u[1] = 1`. -/
theorem numerov_seed_witness :
    (numerovUList pZero 0).getD 0 0 = 0
      ∧ (numerovUList pZero 0).getD 1 0 = 1 := by
  have h := numerov_seed pZero 0 (by norm_num [pZero])
  refine ⟨h.1, ?_⟩
  rw [h.2, pZero_r_diff]
  norm_num

/-- C9: every Solution produced by `numerov_wf` on a grid of at least 3
points satisfies the wavefunction-array invariant: `u` and `ψ` both have
the grid's length and the first sample of `u` is exactly zero. -/
theorem numerov_solution_invariant (p : PhysParams) (energy : ℝ)
    (hN : 3 ≤ p.r_grid.length) :
    (numerov_wf p energy).uwave_function.length = p.r_grid.length
      ∧ (numerov_wf p energy).wave_function.length = p.r_grid.length
      ∧ (numerov_wf p energy).uwave_function.getD 0 0 = 0 := by
  refine ⟨?_, ?_, ?_⟩
  · simp [numerov_wf, normalizeCore, numerovUList]
  · simp [numerov_wf, normalizeCore, add_spherical_harmonic, waveNoSph]
  · show (normalizeCore (numerovUList p energy) p.r_grid).getD 0 0 = 0
    rw [normalizeCore, getD_map_of_zero _ _ (by simp), numerovUList,
      getD_map_range _ _ _ (by omega)]
    show rawU p energy 0 / _ = 0
    rw [show rawU p energy 0 = 0 from rfl]
    exact zero_div _

/-- Witness for C9: the invariant at the concrete parameters. -/
theorem numerov_solution_invariant_witness :
    (numerov_wf pZero 0).uwave_function.length = 3
      ∧ (numerov_wf pZero 0).wave_function.length = 3
      ∧ (numerov_wf pZero 0).uwave_function.getD 0 0 = 0 := by
  have h := numerov_solution_invariant pZero 0 (by norm_num [pZero])
  exact ⟨by rw [h.1]; rfl, by rw [h.2.1]; rfl, h.2.2⟩

/-- C8: on a strictly increasing grid of at least 3 points, whenever the
quadrature integral of the squared samples is nonzero, `normalize` succeeds
and its result has quadrature integral of its square exactly 1; when the
integral is zero or the grid is too short, `normalize` signals the
degenerate case (`none`) instead of silently dividing by zero. -/
theorem normalize_unit_integral :
    (∀ (v r : List ℝ), 3 ≤ r.length →
        (∀ i, i + 1 < r.length → r.getD i 0 < r.getD (i + 1) 0) →
        quadrature (v.map (fun x => x ^ 2)) r ≠ 0 →
        ∃ w, normalize v r = some w
          ∧ quadrature (w.map (fun x => x ^ 2)) r = 1)
      ∧ (∀ (v r : List ℝ),
          r.length < 3 ∨ quadrature (v.map (fun x => x ^ 2)) r = 0 →
          normalize v r = none) := by
  constructor
  · intro v r hN hmono hq
    have hh : 0 < r.getD 1 0 - r.getD 0 0 := by
      have := hmono 0 (by omega)
      linarith
    have hpos : 0 < quadrature (v.map (fun x => x ^ 2)) r :=
      lt_of_le_of_ne (quadrature_sq_nonneg v r hh.le) (Ne.symm hq)
    exact ⟨normalizeCore v r, normalize_eq_core v r hN hq,
      quadrature_sq_normalizeCore v r hpos⟩
  · intro v r hdeg
    unfold normalize
    rw [if_pos hdeg]

/-- Witness for C8: `[0, 1, 0]` on the grid `[1, 2, 3]` normalizes to unit
integral, and a one-point grid is rejected. -/
theorem normalize_unit_integral_witness :
    (∃ w, normalize [0, 1, 0] pZero.r_grid = some w
        ∧ quadrature (w.map (fun x => x ^ 2)) pZero.r_grid = 1)
      ∧ normalize [0, 1, 0] [1] = none := by
  constructor
  · apply normalize_unit_integral.1
    · norm_num [pZero]
    · intro i hi
      have hi3 : i + 1 < 3 := hi
      have : i = 0 ∨ i = 1 := by omega
      rcases this with rfl | rfl <;> norm_num [pZero, List.getD]
    · show quadrature [(0 : ℝ) ^ 2, 1 ^ 2, 0 ^ 2] pZero.r_grid ≠ 0
      rw [quadrature_three]
      norm_num
  · apply normalize_unit_integral.2
    left
    norm_num

/-- C7 (amended): `numerov_kgwf` performs no physical computation — for
every input it builds an all-zero raw wavefunction and returns its
normalization, and since the all-zero array has zero normalization
integral, the result is the degenerate-normalization signal rather than an
all-zero wavefunction array. -/
theorem numerov_kgwf_stub (E : ℝ) (l : ℕ) (potential : ℝ → ℝ)
    (r_grid : List ℝ) :
    numerov_kgwf E l potential r_grid = none :=
  numerov_kgwf_eq_none E l potential r_grid

/-- Witness for the amended C7 at a concrete input. -/
theorem numerov_kgwf_stub_witness :
    numerov_kgwf 0 0 (fun _ => 0) [1, 2, 3] = none :=
  numerov_kgwf_stub 0 0 (fun _ => 0) [1, 2, 3]

/-- C7 counterexample: on the concrete three-point grid the stub does not
return the all-zero array of the grid's length. -/
theorem numerov_kgwf_not_zero_array :
    numerov_kgwf 0 0 (fun _ => 0) [1, 2, 3] ≠ some [0, 0, 0] := by
  rw [numerov_kgwf_eq_none]
  simp

/-- C2 counterexample: with the degenerate bracket `min_energy = 1 ≥ 0 =
max_energy`, `find_bound_state` does not reject the input: its loop runs
and performs two Numerov integrations already in its first iteration
(besides the two boundary integrations done before the loop). -/
theorem search_no_bracket_validation :
    (1 : ℝ) ≥ 0 ∧ (find_bound_state_state pZero 1 0 1 1).1.count = 2 := by
  refine ⟨by norm_num, ?_⟩
  show (searchLoop pZero 1 (0 + 1) (initialState pZero 1 0)).1.count = 2
  rw [searchLoop,
    if_pos (show searchCond 1 (initialState pZero 1 0) from trivial),
    searchLoop]
  show (searchStep pZero (initialState pZero 1 0)).count = 2
  rw [searchStep_count]
  rfl

/-- C2 (amended): the eager rejection of an invalid bracket happens at
construction time, in `PointNucleusFindBoundState.__init__` of `tasks.py`:
whenever `energy_min ≥ energy_max` it raises `ValueError` before any
integration is attempted.  `find_bound_state` itself performs no bracket
validation. -/
theorem bracket_validated_at_construction (energy_min energy_max : ℝ)
    (h : energy_min ≥ energy_max) :
    PointNucleusFindBoundState_init energy_min energy_max
      = Except.error "energy_min must be less than energy_max" := by
  unfold PointNucleusFindBoundState_init
  rw [if_pos h]

/-- Witness for the amended C2: the bracket `(1, 0)` is rejected. -/
theorem bracket_validated_at_construction_witness :
    PointNucleusFindBoundState_init 1 0
      = Except.error "energy_min must be less than energy_max" :=
  bracket_validated_at_construction 1 0 (by norm_num)

/-- C4: each loop body execution of `find_bound_state` makes the newly
computed midpoint Solution current and updates exactly one bracket
boundary: the boundary whose cached Solution has the larger asymptotic
amplitude is replaced by the average of itself and the bracket midpoint
(with its Solution recomputed there), while the other boundary and its
Solution are left unchanged. -/
theorem search_step_moves_worse_boundary (p : PhysParams) (st : SearchState) :
    (searchStep p st).solution
        = numerov_wf p ((st.max_energy + st.min_energy) / 2)
      ∧ (st.max_energy_solution.abs_at_infinity
            < st.min_energy_solution.abs_at_infinity →
          (searchStep p st).min_energy
              = (st.min_energy + (st.max_energy + st.min_energy) / 2) / 2
            ∧ (searchStep p st).min_energy_solution
              = numerov_wf p
                  ((st.min_energy + (st.max_energy + st.min_energy) / 2) / 2)
            ∧ (searchStep p st).max_energy = st.max_energy
            ∧ (searchStep p st).max_energy_solution = st.max_energy_solution)
      ∧ (st.min_energy_solution.abs_at_infinity
            < st.max_energy_solution.abs_at_infinity →
          (searchStep p st).max_energy
              = (st.max_energy + (st.max_energy + st.min_energy) / 2) / 2
            ∧ (searchStep p st).max_energy_solution
              = numerov_wf p
                  ((st.max_energy + (st.max_energy + st.min_energy) / 2) / 2)
            ∧ (searchStep p st).min_energy = st.min_energy
            ∧ (searchStep p st).min_energy_solution
              = st.min_energy_solution) := by
  refine ⟨searchStep_solution p st, ?_, ?_⟩
  · intro h
    simp only [searchStep]
    rw [if_pos h]
    exact ⟨rfl, rfl, rfl, rfl⟩
  · intro h
    simp only [searchStep]
    rw [if_neg (not_lt.mpr h.le)]
    exact ⟨rfl, rfl, rfl, rfl⟩

/-- Witness for C4: at a concrete state whose max boundary has the larger
cached amplitude (`1` against `0`), the body moves the max boundary, keeps
the min boundary, and makes the midpoint Solution current. -/
theorem search_step_moves_worse_boundary_witness :
    (searchStep pZero stLargerMax).max_energy = (1 + (1 + 0) / 2) / 2
      ∧ (searchStep pZero stLargerMax).min_energy = 0
      ∧ (searchStep pZero stLargerMax).solution
          = numerov_wf pZero ((1 + 0) / 2) := by
  have hlt : stLargerMax.min_energy_solution.abs_at_infinity
      < stLargerMax.max_energy_solution.abs_at_infinity := by
    show solFlat.abs_at_infinity < solUnit.abs_at_infinity
    rw [solFlat_amp, solUnit_amp]
    norm_num
  have h := search_step_moves_worse_boundary pZero stLargerMax
  obtain ⟨hmid, -, hmax⟩ := h
  obtain ⟨hM, -, hm, -⟩ := hmax hlt
  exact ⟨hM, hm, hmid⟩

/-- C6: the loop of `find_bound_state` stops immediately once the
tolerance test `|previous_energy − current_energy| ≤ exit_param` holds
(performing no further integration), and in any case the number of Numerov
integrations performed inside the loop is at most `2 · max_iterations`. -/
theorem search_loop_bounded (p : PhysParams) (exit_param : ℝ) (fuel : ℕ)
    (st : SearchState) (min_energy max_energy : ℝ) (max_iterations : ℕ) :
    (¬ searchCond exit_param st → searchLoop p exit_param fuel st = (st, false))
      ∧ (searchLoop p exit_param fuel st).1.count ≤ st.count + 2 * fuel
      ∧ (find_bound_state_state p min_energy max_energy exit_param
          max_iterations).1.count ≤ 2 * max_iterations := by
  have key : ∀ (n : ℕ) (s : SearchState),
      (searchLoop p exit_param n s).1.count ≤ s.count + 2 * n := by
    intro n
    induction n with
    | zero =>
        intro s
        rw [searchLoop]
        simp
    | succ k ih =>
        intro s
        rw [searchLoop]
        by_cases h : searchCond exit_param s
        · rw [if_pos h]
          have h1 := ih (searchStep p s)
          have h2 := searchStep_count p s
          omega
        · rw [if_neg h]
          simp
  refine ⟨?_, key fuel st, ?_⟩
  · intro h
    cases fuel with
    | zero => rw [searchLoop, if_neg h]
    | succ k => rw [searchLoop, if_neg h]
  · have h3 := key max_iterations (initialState p min_energy max_energy)
    have h0 : (initialState p min_energy max_energy).count = 0 := rfl
    show (searchLoop p exit_param max_iterations
      (initialState p min_energy max_energy)).1.count ≤ 2 * max_iterations
    omega

/-- Witness for C6: at a concrete state whose tolerance test already holds
the loop exits at once with no integration, and the count bound holds. -/
theorem search_loop_bounded_witness :
    searchLoop pZero 1 5 stConverged = (stConverged, false)
      ∧ (searchLoop pZero 1 5 stConverged).1.count ≤ stConverged.count + 2 * 5 := by
  have h := search_loop_bounded pZero 1 5 stConverged 0 1 0
  have hnc : ¬ searchCond 1 stConverged := by
    show ¬ (1 : ℝ) < |0 - solFlat.energy|
    norm_num [solFlat]
  exact ⟨h.1 hnc, h.2.1⟩

/-- C10 (amended): each loop body execution started from an ordered bracket
keeps the bracket ordered and nested in the previous one, moves exactly one
boundary — strictly into the interior of the previous bracket — leaves the
other boundary unchanged, and shrinks the bracket width by exactly the
factor `3/4`. -/
theorem search_step_bracket (p : PhysParams) (st : SearchState)
    (h : st.min_energy < st.max_energy) :
    (searchStep p st).min_energy < (searchStep p st).max_energy
      ∧ st.min_energy ≤ (searchStep p st).min_energy
      ∧ (searchStep p st).max_energy ≤ st.max_energy
      ∧ (searchStep p st).max_energy - (searchStep p st).min_energy
          = 3 / 4 * (st.max_energy - st.min_energy)
      ∧ ((searchStep p st).max_energy = st.max_energy
            ∧ st.min_energy < (searchStep p st).min_energy
          ∨ (searchStep p st).min_energy = st.min_energy
            ∧ (searchStep p st).max_energy < st.max_energy) := by
  simp only [searchStep]
  by_cases hc : st.max_energy_solution.abs_at_infinity
      < st.min_energy_solution.abs_at_infinity
  · rw [if_pos hc]
    dsimp only
    refine ⟨by linarith, by linarith, le_refl _, by ring,
      Or.inl ⟨rfl, by linarith⟩⟩
  · rw [if_neg hc]
    dsimp only
    refine ⟨by linarith, le_refl _, by linarith, by ring,
      Or.inr ⟨rfl, by linarith⟩⟩

/-- Witness for the amended C10: from the ordered bracket `(0, 1)` the body
keeps the bracket ordered and shrinks its width to exactly `3/4`. -/
theorem search_step_bracket_witness :
    (searchStep pZero stLargerMax).min_energy
        < (searchStep pZero stLargerMax).max_energy
      ∧ (searchStep pZero stLargerMax).max_energy
          - (searchStep pZero stLargerMax).min_energy = 3 / 4 * (1 - 0) := by
  have h := search_step_bracket pZero stLargerMax (by norm_num [stLargerMax])
  exact ⟨h.1, h.2.2.2.1⟩

/-- C10 counterexample: at a concrete iteration the max boundary is left
unchanged, so the two updated boundaries do not both lie strictly inside
the previous bracket. -/
theorem search_step_bracket_counterexample :
    (searchStep pZero stLargerMin).max_energy = stLargerMin.max_energy
      ∧ ¬ ((searchStep pZero stLargerMin).max_energy
            < stLargerMin.max_energy) := by
  have hc : stLargerMin.max_energy_solution.abs_at_infinity
      < stLargerMin.min_energy_solution.abs_at_infinity := by
    show solFlat.abs_at_infinity < solUnit.abs_at_infinity
    rw [solFlat_amp, solUnit_amp]
    norm_num
  have h1 : (searchStep pZero stLargerMin).max_energy
      = stLargerMin.max_energy := by
    simp only [searchStep]
    rw [if_pos hc]
  exact ⟨h1, by rw [h1]; exact lt_irrefl _⟩

/-- C3 (amended): the search's non-convergence flag is set exactly when the
tolerance test is still unmet at exit (the source logs a recoverable
warning and still returns its result, so partial results are not
discarded), and the returned Solution is the initial best-of-boundaries
Solution or the most recently computed midpoint Solution — not necessarily
the Solution of smallest asymptotic amplitude among those computed. -/
theorem search_returns_last_midpoint (p : PhysParams) (exit_param : ℝ)
    (fuel : ℕ) (st : SearchState) :
    ((searchLoop p exit_param fuel st).2 = true
        ↔ searchCond exit_param (searchLoop p exit_param fuel st).1)
      ∧ ((searchLoop p exit_param fuel st).1.solution = st.solution
          ∨ ∃ st' : SearchState, (searchLoop p exit_param fuel st).1.solution
              = numerov_wf p ((st'.max_energy + st'.min_energy) / 2)) := by
  induction fuel generalizing st with
  | zero =>
      rw [searchLoop]
      constructor
      · by_cases h : searchCond exit_param st
        · simp [if_pos h, h]
        · simp [if_neg h, h]
      · left
        rfl
  | succ k ih =>
      rw [searchLoop]
      by_cases h : searchCond exit_param st
      · rw [if_pos h]
        refine ⟨(ih (searchStep p st)).1, ?_⟩
        rcases (ih (searchStep p st)).2 with heq | hex
        · exact Or.inr ⟨st, heq.trans (searchStep_solution p st)⟩
        · exact Or.inr hex
      · rw [if_neg h]
        constructor
        · simp [h]
        · left
          rfl

/-- Witness for the amended C3 at a concrete loop state. -/
theorem search_returns_last_midpoint_witness :
    (searchLoop pZero 1 0 stConverged).1.solution = stConverged.solution
      ∨ ∃ st' : SearchState, (searchLoop pZero 1 0 stConverged).1.solution
          = numerov_wf pZero ((st'.max_energy + st'.min_energy) / 2) :=
  (search_returns_last_midpoint pZero 1 0 stConverged).2

/-- C3 counterexample: a concrete search that exhausts `max_iterations`
(warning flag set) and returns the latest midpoint Solution even though the
boundary Solution cached in the final state — computed by the search — has
strictly smaller asymptotic amplitude; the returned Solution is therefore
not the amplitude-smallest Solution computed. -/
theorem search_not_best_counterexample :
    (find_bound_state_state pZero (12 / 5) (22 / 5) (1 / 100) 1).2 = true
      ∧ (find_bound_state_state pZero (12 / 5) (22 / 5) (1 / 100)
            1).1.min_energy_solution.abs_at_infinity
        < (find_bound_state_state pZero (12 / 5) (22 / 5) (1 / 100)
            1).1.solution.abs_at_infinity := by
  have hmin0 : rawU pZero (12 / 5) 2 = 0 := by
    rw [pZero_rawU_two]
    norm_num
  have hampmin : (numerov_wf pZero (12 / 5)).abs_at_infinity = 0 :=
    pZero_amp_eq_zero _ hmin0
  have hnotlt : ¬ ((numerov_wf pZero (22 / 5)).abs_at_infinity
      < (numerov_wf pZero (12 / 5)).abs_at_infinity) := by
    rw [hampmin]
    exact not_lt.mpr (abs_at_infinity_nonneg _)
  have hst0 : initialState pZero (12 / 5) (22 / 5)
      = { min_energy := 12 / 5
          max_energy := 22 / 5
          min_energy_solution := numerov_wf pZero (12 / 5)
          max_energy_solution := numerov_wf pZero (22 / 5)
          solution := numerov_wf pZero (12 / 5)
          previous_energy := none
          count := 0 } := by
    simp only [initialState]
    rw [if_neg hnotlt]
  have hstep : searchStep pZero (initialState pZero (12 / 5) (22 / 5))
      = { min_energy := 12 / 5
          max_energy := (22 / 5 + (22 / 5 + 12 / 5) / 2) / 2
          min_energy_solution := numerov_wf pZero (12 / 5)
          max_energy_solution :=
            numerov_wf pZero ((22 / 5 + (22 / 5 + 12 / 5) / 2) / 2)
          solution := numerov_wf pZero ((22 / 5 + 12 / 5) / 2)
          previous_energy := some ((numerov_wf pZero (12 / 5)).energy)
          count := 2 } := by
    rw [hst0]
    simp only [searchStep]
    rw [if_neg hnotlt]
  have hrun : find_bound_state_state pZero (12 / 5) (22 / 5) (1 / 100) 1
      = searchLoop pZero (1 / 100) 0
          (searchStep pZero (initialState pZero (12 / 5) (22 / 5))) := by
    show searchLoop pZero (1 / 100) (0 + 1)
        (initialState pZero (12 / 5) (22 / 5)) = _
    conv_lhs => rw [searchLoop]
    rw [if_pos (show searchCond (1 / 100) (initialState pZero (12 / 5) (22 / 5))
      from trivial)]
  have hcond2 : searchCond (1 / 100)
      (searchStep pZero (initialState pZero (12 / 5) (22 / 5))) := by
    rw [hstep]
    show (1 : ℝ) / 100 < |(numerov_wf pZero (12 / 5)).energy
        - (numerov_wf pZero ((22 / 5 + 12 / 5) / 2)).energy|
    rw [numerov_wf_energy, numerov_wf_energy,
      show (12 : ℝ) / 5 - (22 / 5 + 12 / 5) / 2 = -1 by norm_num,
      abs_neg, abs_one]
    norm_num
  have hmid : rawU pZero ((22 / 5 + 12 / 5) / 2) 2 ≠ 0 := by
    rw [pZero_rawU_two]
    norm_num
  constructor
  · rw [hrun, searchLoop]
    dsimp only
    rw [if_pos hcond2]
  · rw [hrun, searchLoop]
    dsimp only
    rw [hstep]
    dsimp only
    rw [hampmin]
    exact pZero_amp_pos _ hmid

end

end Numerov
